import Mathlib

/-!
Verification of the blflash core (host-side BL602/BL616 flashing utility)
against its natural-language specification.

The Rust sources are embedded shallowly:
* byte strings are `List Nat` (each element a byte value);
* machine integers are `Nat` with explicit `% 2 ^ w` where overflow matters;
* the serial peer is an explicit byte stream (`List Nat`) or a response
  oracle (a function from request to response);
* fallible operations return `Except Error _`;
* stateful loops become structural/fuel recursion emitting explicit
  command or event traces.
-/

/-- Byte strings on the wire: lists of byte values. -/
abbrev Bytes := List Nat

/- ### Error model (src/blflash/src/error.rs) -/

/-- ROM error codes, transcribed from the `RomError` enum in `error.rs`
(including the source's spelling `Unknow` for the sentinel). -/
inductive RomError
  | Success
  | FlashInitError
  | FlashEraseParaError
  | FlashEraseError
  | FlashWriteParaError
  | FlashWriteAddrError
  | FlashWriteError
  | FlashBootPara
  | CmdIdError
  | CmdLenError
  | CmdCrcError
  | CmdSeqError
  | ImgBootheaderLenError
  | ImgBootheaderNotLoadError
  | ImgBootheaderMagicError
  | ImgBootheaderCrcError
  | ImgBootheaderEncryptNotfit
  | ImgBootheaderSignNotfit
  | ImgSegmentCntError
  | ImgAesIvLenError
  | ImgAesIvCrcError
  | ImgPkLenError
  | ImgPkCrcError
  | ImgPkHashError
  | ImgSignatureLenError
  | ImgSignatureCrcError
  | ImgSectionheaderLenError
  | ImgSectionheaderCrcError
  | ImgSectionheaderDstError
  | ImgSectiondataLenError
  | ImgSectiondataDecError
  | ImgSectiondataTlenError
  | ImgSectiondataCrcError
  | ImgHalfbakedError
  | ImgHashError
  | ImgSignParseError
  | ImgSignError
  | ImgDecError
  | ImgAllInvalidError
  | IfRateLenError
  | IfRateParaError
  | IfPasswordError
  | IfPasswordClose
  | PllError
  | InvasionError
  | Polling
  | Fail
  | Unknow
  deriving DecidableEq, Repr

/-- `RomError::try_from(code)` from `num_enum::TryFromPrimitive`: succeeds
exactly on the discriminants listed in `error.rs`. -/
def RomError.fromCode (code : Nat) : Option RomError :=
  match code with
  | 0x0000 => some .Success
  | 0x0001 => some .FlashInitError
  | 0x0002 => some .FlashEraseParaError
  | 0x0003 => some .FlashEraseError
  | 0x0004 => some .FlashWriteParaError
  | 0x0005 => some .FlashWriteAddrError
  | 0x0006 => some .FlashWriteError
  | 0x0007 => some .FlashBootPara
  | 0x0101 => some .CmdIdError
  | 0x0102 => some .CmdLenError
  | 0x0103 => some .CmdCrcError
  | 0x0104 => some .CmdSeqError
  | 0x0201 => some .ImgBootheaderLenError
  | 0x0202 => some .ImgBootheaderNotLoadError
  | 0x0203 => some .ImgBootheaderMagicError
  | 0x0204 => some .ImgBootheaderCrcError
  | 0x0205 => some .ImgBootheaderEncryptNotfit
  | 0x0206 => some .ImgBootheaderSignNotfit
  | 0x0207 => some .ImgSegmentCntError
  | 0x0208 => some .ImgAesIvLenError
  | 0x0209 => some .ImgAesIvCrcError
  | 0x020a => some .ImgPkLenError
  | 0x020b => some .ImgPkCrcError
  | 0x020c => some .ImgPkHashError
  | 0x020d => some .ImgSignatureLenError
  | 0x020e => some .ImgSignatureCrcError
  | 0x020f => some .ImgSectionheaderLenError
  | 0x0210 => some .ImgSectionheaderCrcError
  | 0x0211 => some .ImgSectionheaderDstError
  | 0x0212 => some .ImgSectiondataLenError
  | 0x0213 => some .ImgSectiondataDecError
  | 0x0214 => some .ImgSectiondataTlenError
  | 0x0215 => some .ImgSectiondataCrcError
  | 0x0216 => some .ImgHalfbakedError
  | 0x0217 => some .ImgHashError
  | 0x0218 => some .ImgSignParseError
  | 0x0219 => some .ImgSignError
  | 0x021a => some .ImgDecError
  | 0x021b => some .ImgAllInvalidError
  | 0x0301 => some .IfRateLenError
  | 0x0302 => some .IfRateParaError
  | 0x0303 => some .IfPasswordError
  | 0x0304 => some .IfPasswordClose
  | 0xfffc => some .PllError
  | 0xfffd => some .InvasionError
  | 0xfffe => some .Polling
  | 0xffff => some .Fail
  | 0x8fff => some .Unknow
  | _ => none

/-- The error kinds of `error.rs` that the embedded core can produce.
`Serial` stands for any underlying transport failure (serial/io), carrying
no payload in the model. -/
inductive Error
  | Serial
  | ConnectionFailed
  | Timeout
  | RespError
  | ArgsError
  | RomError (e : RomError)
  deriving DecidableEq, Repr

/- ### Framer: outbound frames (src/blflash/src/connection.rs, to_cmd) -/

/-- `Cursor::write_u8`: append one byte (u8 truncation made explicit). -/
def writeU8 (buf : Bytes) (b : Nat) : Bytes := buf ++ [b % 256]

/-- `Cursor::write_u16::<LittleEndian>`: append a u16 little-endian. -/
def writeU16LE (buf : Bytes) (v : Nat) : Bytes :=
  buf ++ [v % 65536 % 256, v % 65536 / 256]

/-- `Cursor::write_all`: append a byte string. -/
def writeAll (buf : Bytes) (data : Bytes) : Bytes := buf ++ data

/-- A command as the `Command` trait sees it: its `CMD_ID` and its
deku-serialized body bytes. -/
structure Command where
  cmdId : Nat
  body : Bytes

/-- The `Command::checksum` default implementation; no command type in the
source overrides it. -/
def Command.checksum (_ : Command) : Nat := 0

/-- `Connection::to_cmd`: header byte writes followed by the body, exactly
in the order of the source. -/
def to_cmd (c : Command) : Bytes :=
  writeAll (writeU16LE (writeU8 (writeU8 [] c.cmdId) c.checksum) c.body.length) c.body

/-- `Connection::command` performs exactly one frame write per invocation
(`write_all(&req)` appears once, outside any loop). -/
def commandWrites (c : Command) : List Bytes := [to_cmd c]

/- ### Framer: inbound responses (connection.rs, read_exact / read_response) -/

/-- `read_exact(len)` over an explicit incoming byte stream: takes `len`
bytes or fails (timeout / transport error) when the stream is shorter. -/
def read_exact (n : Nat) (s : Bytes) : Except Error (Bytes × Bytes) :=
  if n ≤ s.length then .ok (s.take n, s.drop n) else .error .Serial

/-- u16 little-endian decoding of two bytes (`read_u16::<LittleEndian>`). -/
def u16FromLE (lo hi : Nat) : Nat := lo + 256 * hi

/-- `Connection::read_response(len)` over an incoming stream: reads the
2-byte status header; on `OK` reads `len` payload bytes; on `FL` reads and
decodes a 2-byte ROM error code; otherwise fails with `RespError`. -/
def read_response (len : Nat) (s : Bytes) : Except Error (Bytes × Bytes) :=
  match read_exact 2 s with
  | .error e => .error e
  | .ok (resp, s1) =>
    if resp = [0x4f, 0x4b] then
      if len > 0 then read_exact len s1 else .ok ([], s1)
    else if resp = [0x46, 0x4c] then
      match read_exact 2 s1 with
      | .error e => .error e
      | .ok (codeBytes, _) =>
        match codeBytes with
        | [lo, hi] =>
          .error (.RomError ((RomError.fromCode (u16FromLE lo hi)).getD .Unknow))
        | _ => .error .Serial
    else
      .error .RespError

/- ### Link control: pin evaluation (connection.rs, set_pin) -/

/-- A write to one of the two hardware control lines. -/
inductive PinAction
  | setRts (level : Bool)
  | setDtr (level : Bool)
  deriving DecidableEq, Repr

/-- The pin name `"rts"` as characters. -/
def pinNameRts : List Char := ['r', 't', 's']

/-- The pin name `"dtr"` as characters. -/
def pinNameDtr : List Char := ['d', 't', 'r']

/-- The pin name `"null"` as characters. -/
def pinNameNull : List Char := ['n', 'u', 'l', 'l']

/-- `Connection::set_pin`: invert the level when the expression starts with
`'!'` (`starts_with`), strip all leading `'!'` characters
(`trim_start_matches`), then dispatch on the remaining name. Returns the
list of line writes performed. -/
def set_pin (pin : List Char) (level : Bool) : Except Error (List PinAction) :=
  let lvl := if pin.head? = some '!' then !level else level
  let name := pin.dropWhile (fun c => c = '!')
  if name = pinNameRts then .ok [.setRts lvl]
  else if name = pinNameDtr then .ok [.setDtr lvl]
  else if name = pinNameNull then .ok []
  else .error .ArgsError

/-- The claim's reading of pin evaluation, for refinement comparison:
"strips a leading '!' to mean inverted" — i.e. remove one leading `'!'`
and match the remainder against the three names. -/
def set_pin_strip_one (pin : List Char) (level : Bool) :
    Except Error (List PinAction) :=
  let lvl := if pin.head? = some '!' then !level else level
  let name := if pin.head? = some '!' then pin.tail else pin
  if name = pinNameRts then .ok [.setRts lvl]
  else if name = pinNameDtr then .ok [.setDtr lvl]
  else if name = pinNameNull then .ok []
  else .error .ArgsError

/- ### Connection state and the scoped timeout (connection.rs, with_timeout) -/

/-- The `Connection`: the serial endpoint's configured timeout plus all the
rest of the mutable state (baud, pins, OS buffers), abstracted as `σ` so a
closure may mutate it arbitrarily. -/
structure Conn (σ : Type) where
  timeout : Nat
  rest : σ

/-- `Connection::set_timeout` / `serial.set_timeout`: update the configured
timeout. -/
def Conn.setTimeout {σ : Type} (c : Conn σ) (d : Nat) : Conn σ :=
  { c with timeout := d }

/-- `Connection::with_timeout(d, f)`: save the old timeout, install `d`,
run the closure (which may fail and may itself mutate the connection),
restore the old timeout, return the closure's result. -/
def with_timeout {σ T : Type} (d : Nat)
    (f : Conn σ → Except Error T × Conn σ) (c : Conn σ) :
    Except Error T × Conn σ :=
  let old := c.timeout
  let c1 := c.setTimeout d
  let (result, c2) := f c1
  let c3 := c2.setTimeout old
  (result, c3)

/- ### Boot info (flasher.rs, protocol::BootInfo / BootInfoV2, get_boot_info) -/

/-- `protocol::BootInfo` (the v1 response shape). -/
structure BootInfo where
  len : Nat
  bootrom_version : Nat
  otp_info : Bytes

/-- `protocol::BootInfoV2` (the v2 response shape; `unknow_info` keeps the
source's field name). -/
structure BootInfoV2 where
  len : Nat
  bootrom_version : Nat
  otp_info : Bytes
  unknow_info : Bytes

/-- `BootInfo::to_v2`: widen v1 to v2 by zero-padding the extra bytes. -/
def BootInfo.to_v2 (b : BootInfo) : BootInfoV2 :=
  { len := b.len
    bootrom_version := b.bootrom_version
    otp_info := b.otp_info
    unknow_info := [0, 0, 0, 0] }

/-- The chip profile tag (`ChipType`). -/
inductive ChipType
  | BL602
  | BL616
  deriving DecidableEq, Repr

/-- Which boot-info response shape a `get_boot_info` call requests. -/
inductive BootInfoShape
  | V1
  | V2
  deriving DecidableEq, Repr

/-- `BootRom::get_boot_info`: BL602 issues the v1 request and widens the
decoded v1 response with `to_v2`; BL616 issues the v2 request directly.
The peer's decoded responses for either shape are passed explicitly. -/
def get_boot_info (chip : ChipType) (peerV1 : BootInfo) (peerV2 : BootInfoV2) :
    BootInfoShape × BootInfoV2 :=
  match chip with
  | .BL602 => (.V1, peerV1.to_v2)
  | .BL616 => (.V2, peerV2)

/- ### Segment flashing (src/blflash/src/flasher.rs, load_segments) -/

/-- A segment destined for flash, as `elf::RomSegment` is used by the
flasher: an address and the data bytes. -/
structure RomSegment where
  addr : Nat
  data : Bytes

/-- Modelled from the spec: `RomSegment::size` lives in `elf.rs`, which is
not among the provided sources; the spec's data model has a segment as an
`(addr, data)` pair and uses `len(s.data)` wherever the code calls
`segment.size()`, so `size` is the length of the data. -/
def RomSegment.size (s : RomSegment) : Nat := s.data.length

/-- 2^32, the modulus of u32 arithmetic. -/
def u32Mod : Nat := 4294967296

/-- An eflash-loader command as issued by the second-stage driver. -/
inductive FlashCmd
  | sha256Read (addr len : Nat)
  | flashErase (start stop : Nat)
  | flashProgram (addr : Nat) (data : Bytes)
  deriving DecidableEq, Repr

/-- Is this command a `flash_erase`? -/
def FlashCmd.isErase : FlashCmd → Bool
  | .flashErase _ _ => true
  | _ => false

/-- Is this command a `flash_program`? -/
def FlashCmd.isProgram : FlashCmd → Bool
  | .flashProgram _ _ => true
  | _ => false

/-- Is this command a `sha256_read`? -/
def FlashCmd.isSha256Read : FlashCmd → Bool
  | .sha256Read _ _ => true
  | _ => false

/-- The `flash_program` loop of `load_segments`: each iteration reads up to
4000 bytes from the cursor over the segment data, issues one
`flash_program(cur, chunk)`, and advances `cur` by the chunk size in u32
arithmetic; a zero-length read ends the loop. -/
def programChunks (cur : Nat) (data : Bytes) : List FlashCmd :=
  if data = [] then []
  else
    .flashProgram cur (data.take 4000) ::
      programChunks ((cur + (data.take 4000).length) % u32Mod) (data.drop 4000)
termination_by data.length
decreasing_by
  simp only [List.length_drop]
  have hne : data ≠ [] := by assumption
  have hpos := List.length_pos.mpr hne
  omega

/-- The erase / program / verify tail of one `load_segments` iteration:
`flash_erase(addr, addr + size)` in u32 arithmetic, the program loop, then
the verifying `sha256_read` (whose mismatch is only warned). -/
def eraseProgramVerify (seg : RomSegment) : List FlashCmd :=
  .flashErase seg.addr ((seg.addr + seg.size) % u32Mod) ::
    (programChunks seg.addr seg.data ++ [.sha256Read seg.addr seg.size])

/-- One iteration of the segment loop in `Flasher::load_segments`,
parameterized by the local hash function (the external SHA-256) and the
remote digest oracle (what `sha256_read(addr, len)` returns): when not
forced, a `sha256_read` is issued first and a matching digest skips the
segment; otherwise erase, program and verify follow. The result is the
list of eflash-loader commands issued for the segment. -/
def loadSegmentCmds (hash : Bytes → Bytes) (remote : Nat → Nat → Bytes)
    (force : Bool) (seg : RomSegment) : List FlashCmd :=
  let localHash := hash (seg.data.take seg.size)
  if force then eraseProgramVerify seg
  else if remote seg.addr seg.size = localHash then
    [.sha256Read seg.addr seg.size]
  else
    .sha256Read seg.addr seg.size :: eraseProgramVerify seg

/-- `Flasher::load_segments` over a whole segment list: the commands issued
for each segment, in iteration order. -/
def load_segments_cmds (hash : Bytes → Bytes) (remote : Nat → Nat → Bytes)
    (force : Bool) (segs : List RomSegment) : List FlashCmd :=
  (segs.map (loadSegmentCmds hash remote force)).flatten

/- ### Connect sequence (flasher.rs, handshake / start_connection) -/

/-- Link-level events of the connect sequence. -/
inductive LinkEvent
  | resetToFlash
  | flushSerial
  | burst
  | readAttempt (ok : Bool)
  deriving DecidableEq, Repr

/-- Is this event the `reset_to_flash` pin sequence? -/
def LinkEvent.isReset : LinkEvent → Bool
  | .resetToFlash => true
  | _ => false

/-- Is this event the auto-baud training burst? -/
def LinkEvent.isBurst : LinkEvent → Bool
  | .burst => true
  | _ => false

/-- Is this event a `read_response(0)` attempt? -/
def LinkEvent.isReadAttempt : LinkEvent → Bool
  | .readAttempt _ => true
  | _ => false

/-- The read loop of `Flasher::handshake` (`for _ in 0..5`): `ok j` says
whether the `j`-th `read_response(0)` of this attempt succeeds; the loop
stops at the first success. Returns the events and the success flag. -/
def handshakeReads (ok : Nat → Bool) : Nat → Nat → List LinkEvent × Bool
  | 0, _ => ([], false)
  | n + 1, j =>
    if ok j then ([.readAttempt true], true)
    else
      let r := handshakeReads ok n (j + 1)
      (.readAttempt false :: r.1, r.2)

/-- `Flasher::handshake`: under the 200 ms scoped timeout, send the 0x55
training burst (write + flush), then up to five response reads; fail with
`Timeout` when none succeeds. -/
def handshake (ok : Nat → Bool) : List LinkEvent × Except Error Unit :=
  let r := handshakeReads ok 5 0
  (.burst :: r.1, if r.2 then .ok () else .error .Timeout)

/-- The retry loop of `Flasher::start_connection` (`for i in 1..=10`):
flush, handshake, return on the first success. `okm i` is attempt `i`'s
read outcome function. -/
def connectAttempts (okm : Nat → Nat → Bool) :
    Nat → Nat → List LinkEvent × Except Error Unit
  | 0, _ => ([], .error .ConnectionFailed)
  | n + 1, i =>
    let h := handshake (okm i)
    match h.2 with
    | .ok _ => (.flushSerial :: h.1, .ok ())
    | .error _ =>
      let r := connectAttempts okm n (i + 1)
      (.flushSerial :: (h.1 ++ r.1), r.2)

/-- `Flasher::start_connection`: one `reset_to_flash`, then up to ten
handshake attempts; `ConnectionFailed` when all of them fail. -/
def start_connection (okm : Nat → Nat → Bool) :
    List LinkEvent × Except Error Unit :=
  let r := connectAttempts okm 10 1
  (.resetToFlash :: r.1, r.2)

/- ### Flash dump (flasher.rs, dump_flash) -/

/-- The request `flash_read(cur, min(end - cur, 4096))` that `dump_flash`
issues at cursor position `cur` (`BLOCK_SIZE = 4096`). -/
def dumpReq (nd cur : Nat) : Nat × Nat := (cur, min (nd - cur) 4096)

/-- One iteration of the dump loop: the cursor advances by the length of
the payload the peer returned, in u32 arithmetic. The peer is the flash
device: its response is a function of the request. -/
def dumpNext (peer : Nat → Nat → Bytes) (nd cur : Nat) : Nat :=
  (cur + (peer cur (min (nd - cur) 4096)).length) % u32Mod

/-- `n` iterations of the `while cur < range.end` loop of
`Flasher::dump_flash`, returning the cursor. -/
def dumpIter (peer : Nat → Nat → Bytes) (nd : Nat) : Nat → Nat → Nat
  | 0, cur => cur
  | n + 1, cur => if cur < nd then dumpIter peer nd n (dumpNext peer nd cur) else cur

/-- The `flash_read` requests issued during the first `n` iterations. -/
def dumpReqs (peer : Nat → Nat → Bytes) (nd : Nat) :
    Nat → Nat → List (Nat × Nat)
  | 0, _ => []
  | n + 1, cur =>
    if cur < nd then dumpReq nd cur :: dumpReqs peer nd n (dumpNext peer nd cur)
    else []

/-- The dump loop terminates iff some finite number of iterations drives
the cursor to `end` or beyond. -/
def dumpTerminates (peer : Nat → Nat → Bytes) (nd start : Nat) : Prop :=
  ∃ n, nd ≤ dumpIter peer nd n start

/- ### read_image (src/blflash/src/lib.rs) -/

/-- Outcome of `read_image`: a slice `image[0..4]` on a short input panics
(out of bounds); an ELF prefix routes into the ELF pipeline (not part of
this repository's core sources); anything else is returned unchanged. -/
inductive ImageResult
  | outOfBounds
  | elfProcessed
  | raw (data : Bytes)
  deriving DecidableEq, Repr

/-- `read_image`: compares `image[0..4]` against the ELF magic
`[0x7f, 0x45, 0x4c, 0x46]`. The slice itself is total only for inputs of
at least four bytes; the short case is the explicit `outOfBounds` marker. -/
def read_image (image : Bytes) : ImageResult :=
  if image.length < 4 then .outOfBounds
  else if image.take 4 = [0x7f, 0x45, 0x4c, 0x46] then .elfProcessed
  else .raw image

/- ## Theorems -/

/-- C1: every outbound frame is `[cmd_id, 0, len_lo, len_hi] ++ body` with
`len = |body|` truncated to u16 and encoded little-endian, and the checksum
byte is always zero (the trait default, never overridden). -/
theorem to_cmd_frame_shape (c : Command) (h : c.cmdId < 256) :
    to_cmd c =
      c.cmdId :: 0 :: c.body.length % 65536 % 256 ::
        c.body.length % 65536 / 256 :: c.body ∧
    c.checksum = 0 := by
  constructor
  · simp [to_cmd, writeAll, writeU16LE, writeU8, Command.checksum,
      Nat.mod_eq_of_lt h]
  · rfl

/-- Witness for C1 at the concrete `flash_erase`-style frame
`cmd_id = 0x30`, body of 8 bytes. -/
theorem to_cmd_frame_shape_witness :
    to_cmd ⟨0x30, [0, 0, 1, 0, 15, 0, 1, 0]⟩ =
      [0x30, 0, 8, 0, 0, 0, 1, 0, 15, 0, 1, 0] ∧
    Command.checksum ⟨0x30, [0, 0, 1, 0, 15, 0, 1, 0]⟩ = 0 := by
  have h := to_cmd_frame_shape ⟨0x30, [0, 0, 1, 0, 15, 0, 1, 0]⟩ (by decide)
  exact ⟨by rw [h.1]; rfl, h.2⟩

/-- C3: `with_timeout` restores the serial endpoint's configured timeout on
every exit path: whatever the closure `f` did to the connection and whether
it returned success or failure, the timeout after the call equals the
timeout before it. -/
theorem with_timeout_restores {σ T : Type} (d : Nat)
    (f : Conn σ → Except Error T × Conn σ) (c : Conn σ) :
    (with_timeout d f c).2.timeout = c.timeout := by
  simp [with_timeout, Conn.setTimeout]

/-- C8: for BL602, `get_boot_info` requests the v1 shape and widens it,
carrying `len`, `bootrom_version` and `otp_info` over unchanged and setting
the four extra bytes to zero; for BL616 it requests the v2 shape directly
and returns the peer's v2 record as-is. -/
theorem get_boot_info_shapes (v1 : BootInfo) (v2 : BootInfoV2) :
    get_boot_info .BL602 v1 v2 =
      (.V1, ⟨v1.len, v1.bootrom_version, v1.otp_info, [0, 0, 0, 0]⟩) ∧
    get_boot_info .BL616 v1 v2 = (.V2, v2) := by
  exact ⟨rfl, rfl⟩

/-- C10: `read_image` panics (indexes out of bounds) on every input shorter
than four bytes, and on an input of at least four bytes whose prefix is not
the ELF magic it returns the input unchanged. -/
theorem read_image_short_and_raw (image : Bytes) :
    (image.length < 4 → read_image image = .outOfBounds) ∧
    (4 ≤ image.length → image.take 4 ≠ [0x7f, 0x45, 0x4c, 0x46] →
      read_image image = .raw image) := by
  constructor
  · intro h
    simp [read_image, h]
  · intro h hm
    simp [read_image, Nat.not_lt.mpr h, hm]

/-- Unfolding of `read_response` on a stream that carries at least the two
header bytes. -/
theorem read_response_cons (len a b : Nat) (rest : Bytes) :
    read_response len (a :: b :: rest) =
      if a = 0x4f ∧ b = 0x4b then
        if 0 < len then read_exact len rest else .ok ([], rest)
      else if a = 0x46 ∧ b = 0x4c then
        match rest with
        | lo :: hi :: _ =>
          .error (.RomError ((RomError.fromCode (u16FromLE lo hi)).getD .Unknow))
        | _ => .error .Serial
      else .error .RespError := by
  rcases rest with _ | ⟨lo, rest1⟩
  · simp [read_response, read_exact, List.take, List.drop]
  · rcases rest1 with _ | ⟨hi, rest2⟩
    · simp [read_response, read_exact, List.take, List.drop]
    · simp [read_response, read_exact, List.take, List.drop]

/-- C2: `read_response` succeeds exactly on the `OK` header `0x4F 0x4B`
(returning the payload when the stream carries it); on `FL` (`0x46 0x4C`)
it decodes two more bytes as a u16 little-endian ROM error code, mapping
codes through the enumeration with `Unknow` as fallback — in particular
the scripted peers `46 4C 03 00` and `46 4C FF 8F` yield
`RomError FlashEraseError` and `RomError Unknow`; any other header fails
with `RespError`. -/
theorem read_response_dispatch (len : Nat) (s : Bytes) :
    (∀ out, read_response len s = .ok out → s.take 2 = [0x4f, 0x4b]) ∧
    (∀ rest, s = 0x4f :: 0x4b :: rest → len ≤ rest.length →
      read_response len s = .ok (rest.take len, rest.drop len)) ∧
    (∀ lo hi rest, s = 0x46 :: 0x4c :: lo :: hi :: rest →
      read_response len s =
        .error (.RomError ((RomError.fromCode (u16FromLE lo hi)).getD .Unknow))) ∧
    (∀ a b rest, s = a :: b :: rest → ¬(a = 0x4f ∧ b = 0x4b) →
      ¬(a = 0x46 ∧ b = 0x4c) → read_response len s = .error .RespError) ∧
    read_response 0 [0x46, 0x4c, 0x03, 0x00] = .error (.RomError .FlashEraseError) ∧
    read_response 0 [0x46, 0x4c, 0xff, 0x8f] = .error (.RomError .Unknow) := by
  refine ⟨?_, ?_, ?_, ?_, by rfl, by rfl⟩
  · intro out h
    rcases s with _ | ⟨a, s⟩
    · simp [read_response, read_exact] at h
    · rcases s with _ | ⟨b, rest⟩
      · simp [read_response, read_exact] at h
      · rw [read_response_cons] at h
        by_cases hok : a = 0x4f ∧ b = 0x4b
        · simp [List.take, hok.1, hok.2]
        · rw [if_neg hok] at h
          by_cases hfl : a = 0x46 ∧ b = 0x4c
          · rw [if_pos hfl] at h
            rcases rest with _ | ⟨lo, _ | ⟨hi, r⟩⟩ <;> simp at h
          · rw [if_neg hfl] at h
            simp at h
  · intro rest hs hlen
    subst hs
    rw [read_response_cons]
    rcases Nat.eq_zero_or_pos len with h0 | h0
    · subst h0; simp
    · simp [h0, read_exact, hlen]
  · intro lo hi rest hs
    subst hs
    rw [read_response_cons]
    simp
  · intro a b rest hs hok hfl
    subst hs
    rw [read_response_cons, if_neg hok, if_neg hfl]

/-- Witness for C2 at the spec's scripted peers: a bare `OK`, and an `OK`
followed by a two-byte payload. -/
theorem read_response_dispatch_witness :
    read_response 0 [0x4f, 0x4b] = .ok ([], []) ∧
    read_response 2 [0x4f, 0x4b, 0x34, 0x12] = .ok ([0x34, 0x12], []) := by
  exact ⟨(read_response_dispatch 0 [0x4f, 0x4b]).2.1 [] rfl (by decide),
    (read_response_dispatch 2 [0x4f, 0x4b, 0x34, 0x12]).2.1 [0x34, 0x12] rfl (by decide)⟩

/-- C6 counterexample: the claim reads `set_pin` as stripping a single
leading `'!'`, under which `"!!rts"` leaves the unknown name `"!rts"` and
must fail with `ArgsError`; the code strips ALL leading `'!'` characters
(`trim_start_matches`) and drives RTS (inverted once) instead. -/
theorem set_pin_strip_once_counterexample :
    set_pin ['!', '!', 'r', 't', 's'] true = .ok [.setRts false] ∧
    set_pin_strip_one ['!', '!', 'r', 't', 's'] true = .error .ArgsError := by
  exact ⟨rfl, rfl⟩

/-- C6 amended: `set_pin` inverts the requested level exactly once when the
expression begins with `'!'` and strips ALL leading `'!'` characters before
matching; the stripped name `"rts"` drives RTS, `"dtr"` drives DTR,
`"null"` drives nothing, and any other stripped name fails with
`ArgsError`; in particular `"!rts"`/`true` drives RTS low, `"rts"`/`true`
drives RTS high, and `"null"` drives no line. -/
theorem set_pin_semantics (pin : List Char) (level : Bool) :
    (pin.dropWhile (fun c => c = '!') = pinNameRts →
      set_pin pin level =
        .ok [.setRts (if pin.head? = some '!' then !level else level)]) ∧
    (pin.dropWhile (fun c => c = '!') = pinNameDtr →
      set_pin pin level =
        .ok [.setDtr (if pin.head? = some '!' then !level else level)]) ∧
    (pin.dropWhile (fun c => c = '!') = pinNameNull →
      set_pin pin level = .ok []) ∧
    (pin.dropWhile (fun c => c = '!') ≠ pinNameRts →
      pin.dropWhile (fun c => c = '!') ≠ pinNameDtr →
      pin.dropWhile (fun c => c = '!') ≠ pinNameNull →
      set_pin pin level = .error .ArgsError) ∧
    set_pin ['!', 'r', 't', 's'] true = .ok [.setRts false] ∧
    set_pin ['r', 't', 's'] true = .ok [.setRts true] ∧
    set_pin pinNameNull level = .ok [] := by
  refine ⟨?_, ?_, ?_, ?_, rfl, rfl, ?_⟩
  · intro h
    simp [set_pin, h, pinNameRts, pinNameDtr, pinNameNull]
  · intro h
    simp [set_pin, h, pinNameRts, pinNameDtr, pinNameNull]
  · intro h
    simp [set_pin, h, pinNameRts, pinNameDtr, pinNameNull]
  · intro h1 h2 h3
    simp [set_pin, h1, h2, h3]
  · cases level <;> rfl

/-- Witness for C6 at the concrete expression `"dtr"` with level `false`. -/
theorem set_pin_semantics_witness :
    set_pin pinNameDtr false = .ok [.setDtr false] := by
  exact (set_pin_semantics pinNameDtr false).2.1 (by decide)

/-- Witness for C10: the three-byte input panics; a four-byte non-ELF input
is returned as-is. -/
theorem read_image_short_and_raw_witness :
    read_image [0x7f, 0x45, 0x4c] = .outOfBounds ∧
    read_image [1, 2, 3, 4] = .raw [1, 2, 3, 4] := by
  exact ⟨(read_image_short_and_raw [0x7f, 0x45, 0x4c]).1 (by decide),
    (read_image_short_and_raw [1, 2, 3, 4]).2 (by decide) (by decide)⟩

/-- Fuel-bounded form of `programChunks_only_program`. -/
theorem programChunks_only_program_aux (n : Nat) :
    ∀ (cur : Nat) (data : Bytes), data.length ≤ n →
      ∀ c ∈ programChunks cur data, c.isProgram = true := by
  induction n with
  | zero =>
    intro cur data h c hc
    have hd : data = [] := List.eq_nil_of_length_eq_zero (Nat.le_zero.mp h)
    rw [programChunks] at hc
    simp [hd] at hc
  | succ n ih =>
    intro cur data h c hc
    rw [programChunks] at hc
    by_cases hd : data = []
    · simp [hd] at hc
    · rw [if_neg hd] at hc
      rcases List.mem_cons.mp hc with hc | hc
      · subst hc; rfl
      · have hlen := List.length_pos.mpr hd
        refine ih _ (data.drop 4000) ?_ c hc
        simp only [List.length_drop]
        omega

/-- The program loop issues only `flash_program` commands: no erase and no
digest read appears among its commands. -/
theorem programChunks_only_program (cur : Nat) (data : Bytes) :
    ∀ c ∈ programChunks cur data, c.isProgram = true :=
  programChunks_only_program_aux data.length cur data le_rfl

/-- C4: in a non-forced `load_segments` run, a segment whose remote digest
(returned by `sha256_read` over its address and length) equals the local
digest of its data gets no `flash_erase` and no `flash_program` command and
exactly one `sha256_read`. -/
theorem load_segments_hash_skip (hash : Bytes → Bytes)
    (remote : Nat → Nat → Bytes) (seg : RomSegment)
    (h : remote seg.addr seg.size = hash (seg.data.take seg.size)) :
    (loadSegmentCmds hash remote false seg).countP (·.isErase) = 0 ∧
    (loadSegmentCmds hash remote false seg).countP (·.isProgram) = 0 ∧
    (loadSegmentCmds hash remote false seg).countP (·.isSha256Read) = 1 ∧
    loadSegmentCmds hash remote false seg = [.sha256Read seg.addr seg.size] := by
  have hc : loadSegmentCmds hash remote false seg =
      [.sha256Read seg.addr seg.size] := by
    simp [loadSegmentCmds, h]
  refine ⟨?_, ?_, ?_, hc⟩ <;>
    simp [hc, List.countP_cons, FlashCmd.isErase, FlashCmd.isProgram,
      FlashCmd.isSha256Read]

/-- Witness for C4: a concrete matched segment issues exactly the one
`sha256_read`. -/
theorem load_segments_hash_skip_witness :
    (loadSegmentCmds (fun _ => [7]) (fun _ _ => [7]) false
        ⟨0x10000, [1, 2, 3]⟩).countP (·.isErase) = 0 ∧
    (loadSegmentCmds (fun _ => [7]) (fun _ _ => [7]) false
        ⟨0x10000, [1, 2, 3]⟩).countP (·.isProgram) = 0 ∧
    (loadSegmentCmds (fun _ => [7]) (fun _ _ => [7]) false
        ⟨0x10000, [1, 2, 3]⟩).countP (·.isSha256Read) = 1 ∧
    loadSegmentCmds (fun _ => [7]) (fun _ _ => [7]) false ⟨0x10000, [1, 2, 3]⟩ =
      [.sha256Read 0x10000 3] :=
  load_segments_hash_skip (fun _ => [7]) (fun _ _ => [7]) ⟨0x10000, [1, 2, 3]⟩ rfl

/-- C5: whenever the erase path of `load_segments` is taken (forced run, or
digest mismatch), the segment's commands contain exactly one `flash_erase`,
and it runs from the segment address to the segment address plus the data
length (the first address not erased), computed in u32 arithmetic. -/
theorem flash_erase_range (hash : Bytes → Bytes) (remote : Nat → Nat → Bytes)
    (force : Bool) (seg : RomSegment)
    (h : force = true ∨ remote seg.addr seg.size ≠ hash (seg.data.take seg.size)) :
    (loadSegmentCmds hash remote force seg).filter (·.isErase) =
      [.flashErase seg.addr ((seg.addr + seg.data.length) % u32Mod)] := by
  have hp : (programChunks seg.addr seg.data).filter (·.isErase) = [] := by
    rw [List.filter_eq_nil_iff]
    intro c hc
    have h1 := programChunks_only_program seg.addr seg.data c hc
    cases c with
    | sha256Read a l => simp [FlashCmd.isProgram] at h1
    | flashErase a b => simp [FlashCmd.isProgram] at h1
    | flashProgram a d => simp [FlashCmd.isErase]
  have ht : ∀ a b, FlashCmd.isErase (.flashErase a b) = true := fun _ _ => rfl
  have hf : ∀ a b, FlashCmd.isErase (.sha256Read a b) = false := fun _ _ => rfl
  have he : (eraseProgramVerify seg).filter (·.isErase) =
      [.flashErase seg.addr ((seg.addr + seg.data.length) % u32Mod)] := by
    simp only [eraseProgramVerify, List.filter_cons, List.filter_append, ht,
      hf, if_true, Bool.false_eq_true, if_false, hp, List.filter_nil,
      List.append_nil, List.nil_append, RomSegment.size]
  cases force with
  | true =>
    have hl : loadSegmentCmds hash remote true seg = eraseProgramVerify seg := by
      simp [loadSegmentCmds]
    rw [hl]
    exact he
  | false =>
    have hm : remote seg.addr seg.size ≠ hash (seg.data.take seg.size) := by
      rcases h with hf | hm
      · exact absurd hf (by simp)
      · exact hm
    have hl : loadSegmentCmds hash remote false seg =
        FlashCmd.sha256Read seg.addr seg.size :: eraseProgramVerify seg := by
      simp [loadSegmentCmds, hm]
    rw [hl, List.filter_cons]
    have hs : FlashCmd.isErase (.sha256Read seg.addr seg.size) = false := rfl
    simp only [hs, Bool.false_eq_true, if_false]
    exact he

/-- Witness for C5 at a segment near the top of the u32 address space: the
erase end wraps to `(0xfffffffa + 10) mod 2^32 = 4`. -/
theorem flash_erase_range_witness :
    (loadSegmentCmds (fun _ => []) (fun _ _ => [1]) true
        ⟨4294967290, [1, 2, 3, 4, 5, 6, 7, 8, 9, 10]⟩).filter (·.isErase) =
      [.flashErase 4294967290 4] := by
  have h := flash_erase_range (fun _ => []) (fun _ _ => [1]) true
    ⟨4294967290, [1, 2, 3, 4, 5, 6, 7, 8, 9, 10]⟩ (Or.inl rfl)
  rw [h]; rfl


/-- Every event of the handshake read loop is a read attempt, and there are
at most `n` of them. -/
theorem handshakeReads_events (ok : Nat → Bool) :
    ∀ n j, (handshakeReads ok n j).1.length ≤ n ∧
      ∀ e ∈ (handshakeReads ok n j).1, e.isReadAttempt = true := by
  intro n
  induction n with
  | zero => intro j; simp [handshakeReads]
  | succ n ih =>
    intro j
    by_cases h : ok j
    · simp [handshakeReads, h, LinkEvent.isReadAttempt]
    · have h1 := ih (j + 1)
      constructor
      · simp only [handshakeReads, h, Bool.false_eq_true, if_false,
          List.length_cons]
        omega
      · intro e he
        simp only [handshakeReads, h, Bool.false_eq_true, if_false] at he
        rcases List.mem_cons.mp he with he | he
        · subst he; rfl
        · exact h1.2 e he

/-- The handshake read loop succeeds iff one of its (at most `n`) reads,
starting at index `j`, succeeds. -/
theorem handshakeReads_success (ok : Nat → Bool) :
    ∀ n j, (handshakeReads ok n j).2 = true ↔ ∃ k, k < n ∧ ok (j + k) = true := by
  intro n
  induction n with
  | zero => intro j; simp [handshakeReads]
  | succ n ih =>
    intro j
    by_cases h : ok j
    · refine iff_of_true ?_ ⟨0, Nat.succ_pos n, by simpa using h⟩
      simp [handshakeReads, h]
    · simp only [handshakeReads, h, Bool.false_eq_true, if_false]
      rw [ih (j + 1)]
      constructor
      · rintro ⟨k, hk, hok⟩
        exact ⟨k + 1, by omega, by rwa [show j + (k + 1) = j + 1 + k by omega]⟩
      · rintro ⟨k, hk, hok⟩
        cases k with
        | zero => exact absurd (by simpa using hok) h
        | succ k =>
          exact ⟨k, by omega, by rwa [show j + 1 + k = j + (k + 1) by omega]⟩

/-- One handshake attempt: at most five reads, no reset and exactly one
burst among its events, `Timeout` exactly when all five reads fail, success
exactly when one of the first five reads succeeds. -/
theorem handshake_spec (ok : Nat → Bool) :
    (handshake ok).1.countP (·.isReadAttempt) ≤ 5 ∧
    (handshake ok).1.countP (·.isReset) = 0 ∧
    (handshake ok).1.countP (·.isBurst) = 1 ∧
    ((handshake ok).2 = .error .Timeout ↔ ∀ j, j < 5 → ok j = false) ∧
    ((handshake ok).2 = .ok () ↔ ∃ j, j < 5 ∧ ok j = true) := by
  have hev := handshakeReads_events ok 5 0
  have hread : (handshakeReads ok 5 0).1.countP (·.isReadAttempt) ≤ 5 :=
    le_trans (List.countP_le_length _) hev.1
  have hnoReset : (handshakeReads ok 5 0).1.countP (·.isReset) = 0 := by
    rw [List.countP_eq_zero]
    intro e he
    have h1 := hev.2 e he
    cases e <;> simp_all [LinkEvent.isReadAttempt, LinkEvent.isReset]
  have hnoBurst : (handshakeReads ok 5 0).1.countP (·.isBurst) = 0 := by
    rw [List.countP_eq_zero]
    intro e he
    have h1 := hev.2 e he
    cases e <;> simp_all [LinkEvent.isReadAttempt, LinkEvent.isBurst]
  have hsucc : (handshakeReads ok 5 0).2 = true ↔ ∃ k, k < 5 ∧ ok k = true := by
    have h := handshakeReads_success ok 5 0
    simpa using h
  have hfb1 : LinkEvent.burst.isReadAttempt = false := rfl
  have hfb2 : LinkEvent.burst.isReset = false := rfl
  have hfb3 : LinkEvent.burst.isBurst = true := rfl
  refine ⟨?_, ?_, ?_, ?_, ?_⟩
  · show (LinkEvent.burst :: (handshakeReads ok 5 0).1).countP (·.isReadAttempt) ≤ 5
    rw [List.countP_cons]
    simp only [hfb1, Bool.false_eq_true, if_false]
    omega
  · show (LinkEvent.burst :: (handshakeReads ok 5 0).1).countP (·.isReset) = 0
    rw [List.countP_cons, hnoReset]
    simp [hfb2]
  · show (LinkEvent.burst :: (handshakeReads ok 5 0).1).countP (·.isBurst) = 1
    rw [List.countP_cons, hnoBurst]
    simp [hfb3]
  · show (if (handshakeReads ok 5 0).2 = true then (Except.ok () : Except Error Unit)
        else .error .Timeout) = .error .Timeout ↔ ∀ j, j < 5 → ok j = false
    by_cases hb : (handshakeReads ok 5 0).2 = true
    · rw [if_pos hb]
      rcases hsucc.mp hb with ⟨k, hk, hok2⟩
      refine iff_of_false (by simp) ?_
      intro hall
      have hf := hall k hk
      rw [hf] at hok2
      exact Bool.noConfusion hok2
    · rw [if_neg hb]
      refine iff_of_true rfl ?_
      intro j hj
      cases hbj : ok j with
      | false => rfl
      | true => exact absurd (hsucc.mpr ⟨j, hj, hbj⟩) hb
  · show (if (handshakeReads ok 5 0).2 = true then (Except.ok () : Except Error Unit)
        else .error .Timeout) = .ok () ↔ ∃ j, j < 5 ∧ ok j = true
    by_cases hb : (handshakeReads ok 5 0).2 = true
    · rw [if_pos hb]
      exact iff_of_true rfl (hsucc.mp hb)
    · rw [if_neg hb]
      refine iff_of_false (by simp) ?_
      intro hex
      exact hb (hsucc.mpr hex)

/-- The connect retry loop: no reset among its events, at most `n` bursts
(handshake attempts), and `ConnectionFailed` exactly when every one of the
`n` attempts `i, i+1, …, i+n-1` has all five of its reads fail. -/
theorem connectAttempts_spec (okm : Nat → Nat → Bool) :
    ∀ n i, (connectAttempts okm n i).1.countP (·.isReset) = 0 ∧
      (connectAttempts okm n i).1.countP (·.isBurst) ≤ n ∧
      ((connectAttempts okm n i).2 = .error .ConnectionFailed ↔
        ∀ k, i ≤ k → k < i + n → ∀ j, j < 5 → okm k j = false) := by
  intro n
  induction n with
  | zero =>
    intro i
    refine ⟨rfl, le_rfl, ?_⟩
    refine iff_of_true rfl ?_
    intro k hk1 hk2
    exact absurd hk2 (by omega)
  | succ n ih =>
    intro i
    have hh := handshake_spec (okm i)
    have hi := ih (i + 1)
    have hfl1 : LinkEvent.flushSerial.isReset = false := rfl
    have hfl2 : LinkEvent.flushSerial.isBurst = false := rfl
    rcases hok : (handshake (okm i)).2 with e | u
    · -- this attempt failed: the loop recurses
      have hto : ∀ j, j < 5 → okm i j = false := by
        intro j hj
        cases hbj : okm i j with
        | false => rfl
        | true =>
          have hex : (handshake (okm i)).2 = .ok () :=
            hh.2.2.2.2.mpr ⟨j, hj, hbj⟩
          rw [hok] at hex
          exact Except.noConfusion hex
      have hunf1 : (connectAttempts okm (n + 1) i).1 =
          .flushSerial ::
            ((handshake (okm i)).1 ++ (connectAttempts okm n (i + 1)).1) := by
        simp only [connectAttempts, hok]
      have hunf2 : (connectAttempts okm (n + 1) i).2 =
          (connectAttempts okm n (i + 1)).2 := by
        simp only [connectAttempts, hok]
      refine ⟨?_, ?_, ?_⟩
      · rw [hunf1, List.countP_cons, List.countP_append, hh.2.1, hi.1]
        simp [hfl1]
      · rw [hunf1, List.countP_cons, List.countP_append, hh.2.2.1]
        have hb2 := hi.2.1
        simp only [hfl2, Bool.false_eq_true, if_false]
        omega
      · rw [hunf2, hi.2.2]
        constructor
        · intro hall k hk1 hk2 j hj
          rcases Nat.eq_or_lt_of_le hk1 with hk | hk
          · subst hk; exact hto j hj
          · exact hall k hk (by omega) j hj
        · intro hall k hk1 hk2 j hj
          exact hall k (by omega) (by omega) j hj
    · -- this attempt succeeded: the loop returns
      cases u
      have hunf1 : (connectAttempts okm (n + 1) i).1 =
          .flushSerial :: (handshake (okm i)).1 := by
        simp only [connectAttempts, hok]
      have hunf2 : (connectAttempts okm (n + 1) i).2 = .ok () := by
        simp only [connectAttempts, hok]
      refine ⟨?_, ?_, ?_⟩
      · rw [hunf1, List.countP_cons, hh.2.1]
        simp [hfl1]
      · rw [hunf1, List.countP_cons, hh.2.2.1]
        simp only [hfl2, Bool.false_eq_true, if_false]
        omega
      · rw [hunf2]
        refine iff_of_false (by simp) ?_
        intro hall
        rcases hh.2.2.2.2.mp hok with ⟨j, hj, hjo⟩
        have hf := hall i le_rfl (by omega) j hj
        rw [hf] at hjo
        exact Bool.noConfusion hjo

/-- C7: the connect sequence performs exactly one `reset_to_flash` and at
most ten handshake attempts (bursts), failing with `ConnectionFailed`
exactly when every attempt fails; each handshake attempt makes at most five
response reads and fails with `Timeout` exactly when none of its five reads
succeeds; and the Framer issues each command with exactly one frame write
(no retry outside the handshake). -/
theorem start_connection_spec (okm : Nat → Nat → Bool) :
    (start_connection okm).1.countP (·.isReset) = 1 ∧
    (start_connection okm).1.countP (·.isBurst) ≤ 10 ∧
    ((start_connection okm).2 = .error .ConnectionFailed ↔
      ∀ k, 1 ≤ k → k < 11 → ∀ j, j < 5 → okm k j = false) ∧
    (∀ ok, (handshake ok).1.countP (·.isReadAttempt) ≤ 5 ∧
      ((handshake ok).2 = .error .Timeout ↔ ∀ j, j < 5 → ok j = false)) ∧
    (∀ c, (commandWrites c).length = 1) := by
  have hc := connectAttempts_spec okm 10 1
  have hr : LinkEvent.resetToFlash.isReset = true := rfl
  have hb : LinkEvent.resetToFlash.isBurst = false := rfl
  refine ⟨?_, ?_, ?_, ?_, fun c => rfl⟩
  · show (LinkEvent.resetToFlash ::
      (connectAttempts okm 10 1).1).countP (·.isReset) = 1
    rw [List.countP_cons, hc.1]
    simp [hr]
  · show (LinkEvent.resetToFlash ::
      (connectAttempts okm 10 1).1).countP (·.isBurst) ≤ 10
    rw [List.countP_cons]
    have h2 := hc.2.1
    simp only [hb, Bool.false_eq_true, if_false]
    omega
  · have h3 := hc.2.2
    rw [show (1 : Nat) + 10 = 11 from rfl] at h3
    exact h3
  · intro ok
    exact ⟨(handshake_spec ok).1, (handshake_spec ok).2.2.2.1⟩

/-- Witness for C7: a peer that never answers any read makes the connect
sequence fail with `ConnectionFailed`. -/
theorem start_connection_spec_witness :
    (start_connection (fun _ _ => false)).2 = .error .ConnectionFailed :=
  (start_connection_spec (fun _ _ => false)).2.2.1.mpr
    (fun _ _ _ _ _ => rfl)

/-- Unfolding of one dump-loop iteration. -/
theorem dumpIter_succ (peer : Nat → Nat → Bytes) (nd n cur : Nat) :
    dumpIter peer nd (n + 1) cur =
      if cur < nd then dumpIter peer nd n (dumpNext peer nd cur) else cur := rfl

/-- Once the cursor has reached `end`, further iterations leave it still. -/
theorem dumpIter_absorb (peer : Nat → Nat → Bytes) (nd : Nat) :
    ∀ n cur, nd ≤ cur → dumpIter peer nd n cur = cur := by
  intro n
  induction n with
  | zero => intro cur _; rfl
  | succ n ih =>
    intro cur h
    rw [dumpIter_succ, if_neg (by omega)]

/-- Iterating `a + b` times is iterating `a` times, then `b` times. -/
theorem dumpIter_add (peer : Nat → Nat → Bytes) (nd : Nat) :
    ∀ a b cur, dumpIter peer nd (a + b) cur =
      dumpIter peer nd b (dumpIter peer nd a cur) := by
  intro a
  induction a with
  | zero => intro b cur; rw [Nat.zero_add]; rfl
  | succ a ih =>
    intro b cur
    have h1 : a + 1 + b = (a + b) + 1 := by omega
    rw [h1, dumpIter_succ, dumpIter_succ]
    by_cases h : cur < nd
    · rw [if_pos h, if_pos h, ih]
    · rw [if_neg h, if_neg h, dumpIter_absorb peer nd b cur (by omega)]

/-- When the peer returns at most the requested bytes, one iteration keeps
the cursor at or below `end`. -/
theorem dumpNext_le (peer : Nat → Nat → Bytes) (nd cur : Nat)
    (hpeer : ∀ a s, (peer a s).length ≤ s) (hnd : nd < u32Mod)
    (h : cur < nd) : dumpNext peer nd cur ≤ nd := by
  have hl := hpeer cur (min (nd - cur) 4096)
  have hle : cur + (peer cur (min (nd - cur) 4096)).length ≤ nd := by omega
  rw [dumpNext, Nat.mod_eq_of_lt (by omega)]
  exact hle

/-- The cursor never passes `end` when the peer returns at most the
requested bytes. -/
theorem dumpIter_le (peer : Nat → Nat → Bytes) (nd : Nat)
    (hpeer : ∀ a s, (peer a s).length ≤ s) (hnd : nd < u32Mod) :
    ∀ n cur, cur ≤ nd → dumpIter peer nd n cur ≤ nd := by
  intro n
  induction n with
  | zero => intro cur h; exact h
  | succ n ih =>
    intro cur h
    rw [dumpIter_succ]
    by_cases hc : cur < nd
    · rw [if_pos hc]
      exact ih _ (dumpNext_le peer nd cur hpeer hnd hc)
    · rw [if_neg hc]
      exact h

/-- With every request answered by at least one and at most the requested
number of bytes, `n` iterations reach `end` whenever `end - cur ≤ n`. -/
theorem dumpIter_reaches (peer : Nat → Nat → Bytes) (nd : Nat)
    (hpeer : ∀ a s, 0 < s → 0 < (peer a s).length ∧ (peer a s).length ≤ s)
    (hnd : nd < u32Mod) :
    ∀ n cur, cur ≤ nd → nd - cur ≤ n → nd ≤ dumpIter peer nd n cur := by
  intro n
  induction n with
  | zero =>
    intro cur h1 h2
    have h0 : dumpIter peer nd 0 cur = cur := rfl
    omega
  | succ n ih =>
    intro cur h1 h2
    rw [dumpIter_succ]
    by_cases hc : cur < nd
    · rw [if_pos hc]
      have hs : 0 < min (nd - cur) 4096 := by omega
      obtain ⟨hl1, hl2⟩ := hpeer cur (min (nd - cur) 4096) hs
      have hnx : dumpNext peer nd cur =
          cur + (peer cur (min (nd - cur) 4096)).length := by
        rw [dumpNext, Nat.mod_eq_of_lt (by omega)]
      refine ih (dumpNext peer nd cur) ?_ ?_
      · rw [hnx]; omega
      · rw [hnx]; omega
    · rw [if_neg hc]; omega

/-- A cursor whose request the peer answers with an empty payload is a
fixed point of the loop. -/
theorem dumpIter_stuck (peer : Nat → Nat → Bytes) (nd cur0 : Nat)
    (hnd : nd < u32Mod) (hc : cur0 < nd)
    (hemp : peer cur0 (min (nd - cur0) 4096) = []) :
    ∀ n, dumpIter peer nd n cur0 = cur0 := by
  intro n
  induction n with
  | zero => rfl
  | succ n ih =>
    rw [dumpIter_succ, if_pos hc]
    have hnx : dumpNext peer nd cur0 = cur0 := by
      simp only [dumpNext, hemp, List.length_nil, Nat.add_zero]
      exact Nat.mod_eq_of_lt (by omega)
    rw [hnx, ih]

/-- Every request the dump loop issues is at a cursor strictly below `end`
and asks for exactly `min (end - cur) 4096` bytes. -/
theorem dumpReqs_shape (peer : Nat → Nat → Bytes) (nd : Nat) :
    ∀ n cur, ∀ req ∈ dumpReqs peer nd n cur,
      req.1 < nd ∧ req.2 = min (nd - req.1) 4096 := by
  intro n
  induction n with
  | zero => intro cur req h; simp [dumpReqs] at h
  | succ n ih =>
    intro cur req h
    have hu : dumpReqs peer nd (n + 1) cur =
        if cur < nd then dumpReq nd cur :: dumpReqs peer nd n (dumpNext peer nd cur)
        else [] := rfl
    rw [hu] at h
    by_cases hc : cur < nd
    · rw [if_pos hc] at h
      rcases List.mem_cons.mp h with h | h
      · subst h; exact ⟨hc, rfl⟩
      · exact ih _ req h
    · rw [if_neg hc] at h
      simp at h

/-- C9: every `flash_read` request of `dump_flash` asks for exactly
`min (end - cur, 4096)` bytes at a cursor strictly below `end`; when the
peer returns at most the requested bytes the cursor, advancing by the
returned payload length, never passes `end`; when additionally every
answer carries at least one byte the loop terminates; and if the loop ever
reaches a cursor whose request the peer answers with an empty payload,
`dump_flash` loops forever. -/
theorem dump_flash_spec (peer : Nat → Nat → Bytes) (nd start : Nat) :
    (∀ n req, req ∈ dumpReqs peer nd n start →
      req.1 < nd ∧ req.2 = min (nd - req.1) 4096) ∧
    ((∀ a s, (peer a s).length ≤ s) → start ≤ nd → nd < u32Mod →
      ∀ n, dumpIter peer nd n start ≤ nd) ∧
    ((∀ a s, 0 < s → 0 < (peer a s).length ∧ (peer a s).length ≤ s) →
      start ≤ nd → nd < u32Mod → dumpTerminates peer nd start) ∧
    (∀ m cur0, nd < u32Mod → dumpIter peer nd m start = cur0 → cur0 < nd →
      peer cur0 (min (nd - cur0) 4096) = [] →
      ¬ dumpTerminates peer nd start) := by
  refine ⟨fun n => dumpReqs_shape peer nd n start, ?_, ?_, ?_⟩
  · intro hpeer h1 h2 n
    exact dumpIter_le peer nd hpeer h2 n start h1
  · intro hpeer h1 h2
    exact ⟨nd - start, dumpIter_reaches peer nd hpeer h2 (nd - start) start h1 le_rfl⟩
  · intro m cur0 hnd hreach hc hemp hterm
    obtain ⟨n, hn⟩ := hterm
    have hstuck := dumpIter_stuck peer nd cur0 hnd hc hemp
    have hlt : ∀ k, dumpIter peer nd k start < nd := by
      intro k
      by_cases hkm : k ≤ m
      · by_contra hge
        push_neg at hge
        have heq : dumpIter peer nd m start = dumpIter peer nd k start := by
          have hm : m = k + (m - k) := by omega
          rw [hm, dumpIter_add]
          exact dumpIter_absorb peer nd (m - k) _ hge
        rw [hreach] at heq
        omega
      · push_neg at hkm
        have hk : k = m + (k - m) := by omega
        rw [hk, dumpIter_add, hreach, hstuck (k - m)]
        exact hc
    have := hlt n
    omega

/-- Witness for C9: a well-behaved peer that always returns exactly the
requested bytes terminates a five-byte dump. -/
theorem dump_flash_spec_witness :
    dumpTerminates (fun _ s => List.replicate s 0) 5 0 := by
  refine (dump_flash_spec (fun _ s => List.replicate s 0) 5 0).2.2.1 ?_
    (by omega) (by decide)
  intro a s hs
  constructor
  · simpa using hs
  · simp
